import Mathlib

/-!
Verification of the morar repository: column classification, missing-data
handling, header transformation, metadata prefixing (src/morar/utils.py) and
the CSV ingestion pipeline (src/morar/create_tables.py).

Strings are modelled as lists of characters (`Str`); a pandas DataFrame is
modelled as a `Table` with a list of column labels and a list of rows, where
a cell is `Option ℚ` and `none` stands for a missing value (NaN).
-/

namespace Morar

abbrev Str := List Char

/-- Python substring test: `needle in hay`. -/
def containsSub (needle : Str) : Str → Bool
  | [] => needle.isPrefixOf []
  | c :: cs => needle.isPrefixOf (c :: cs) || containsSub needle cs

/-- `utils.get_featuredata`: columns whose label does not start with
`metadata_string` (pre = True), or does not contain it (pre = False). -/
def get_featuredata (cols : List Str) (metadata_string : Str) (pre : Bool) : List Str :=
  if pre then cols.filter (fun i => !(metadata_string.isPrefixOf i))
  else cols.filter (fun i => !(containsSub metadata_string i))

/-- `utils.get_metadata`: columns whose label starts with `metadata_string`
(pre = True), or contains it (pre = False). -/
def get_metadata (cols : List Str) (metadata_string : Str) (pre : Bool) : List Str :=
  if pre then cols.filter (fun i => metadata_string.isPrefixOf i)
  else cols.filter (fun i => containsSub metadata_string i)

/-- A pandas DataFrame: named columns and rows of optional rationals,
`none` standing for NaN. -/
structure Table where
  cols : List Str
  rows : List (List (Option ℚ))
deriving DecidableEq

/-- The values of column `j` of a table, in row order. -/
def colVals (t : Table) (j : Nat) : List (Option ℚ) :=
  t.rows.map (fun r => r.getD j none)

/-- `data.isnull().sum()` for column `j`: the number of missing entries. -/
def nanCount (t : Table) (j : Nat) : Nat :=
  ((colVals t j).filter (fun v => v.isNone)).length

/-- A Python value passed to `get_image_quality`: either a pandas DataFrame
or some other object (which fails the `isinstance` check). -/
inductive PandasObj where
  | dataFrame (t : Table)
  | notDataFrame
deriving DecidableEq

/-- The CellProfiler ImageQuality marker substring. -/
def imageQualityStr : Str := "ImageQuality".toList

/-- `utils.get_image_quality`: the columns whose label contains
"ImageQuality"; raises if the input is not a DataFrame or no such column
exists. -/
def get_image_quality (obj : PandasObj) : Except String (List Str) :=
  match obj with
  | .notDataFrame => .error "not a pandas DataFrame"
  | .dataFrame t =>
    let im_qc_cols := t.cols.filter (fun col => containsSub imageQualityStr col)
    if im_qc_cols.length = 0 then .error "no ImageQuality measurements found"
    else .ok im_qc_cols

/-- The `extra` argument of `utils.img_to_metadata`: `None`, a string, a list
of strings, or a value of any other type. -/
inductive ExtraArg where
  | noneArg
  | strArg (s : Str)
  | listArg (l : List Str)
  | badArg
deriving DecidableEq

/-- The fixed feature-data prefix tuple of `utils.img_to_metadata`. -/
def base_feature_pres : List Str :=
  ["Granularity".toList, "Correlation".toList, "Count".toList, "Metadata".toList]

/-- The feature-data prefix tuple after extension by `extra`
(`none` models the `TypeError` branch). -/
def feature_data_pres (extra : ExtraArg) : Option (List Str) :=
  match extra with
  | .noneArg => some base_feature_pres
  | .strArg s => some (base_feature_pres ++ [s])
  | .listArg l => some (base_feature_pres ++ l)
  | .badArg => none

/-- Python `name.startswith(tuple_of_pres)`. -/
def startsWithAny (pres : List Str) (name : Str) : Bool :=
  pres.any (fun p => p.isPrefixOf name)

/-- `utils.img_to_metadata`: prepend `pre` to every column name that does not
start with one of the feature-data prefixes. -/
def img_to_metadata (cols : List Str) (pre : Str) (extra : ExtraArg) :
    Except String (List Str) :=
  match feature_data_pres extra with
  | none => .error "extra needs to be a string or a list"
  | some pres =>
    .ok (cols.map (fun name => if startsWithAny pres name then name else pre ++ name))

/-- The ASCII whitespace characters of Python `str.strip()` / `str.split()`. -/
def pyWS (c : Char) : Bool :=
  c == ' ' || c == '\t' || c == '\n' || c == '\x0b' || c == '\x0c' || c == '\r'

/-- Python `str.strip()`: remove leading and trailing whitespace. -/
def pyStrip (l : Str) : Str :=
  ((l.dropWhile pyWS).reverse.dropWhile pyWS).reverse

/-- Helper for Python `str.split()` with no arguments: `acc` is the current
(reversed) run of non-whitespace characters. -/
def pySplitAux : Str → Str → List Str
  | [], acc => if acc.isEmpty then [] else [acc.reverse]
  | c :: cs, acc =>
    if pyWS c then
      (if acc.isEmpty then pySplitAux cs [] else acc.reverse :: pySplitAux cs [])
    else pySplitAux cs (c :: acc)

/-- Python `str.split()` with no arguments: the maximal runs of
non-whitespace characters. -/
def pySplit (l : Str) : List Str := pySplitAux l []

/-- `utils.collapse_cols` applied to a two-level column header:
`sep.join(col).strip()` for each column, preserving order. -/
def collapse_cols (cols2 : List (Str × Str)) (sep : Str) : List Str :=
  cols2.map (fun col => pyStrip (col.1 ++ sep ++ col.2))

/-- One step of `utils.inflate_cols`: `colname.split()` and taking tokens 0
and 1; `none` models the IndexError raised when fewer than two tokens
exist. -/
def splitLabel (colname : Str) : Option (Str × Str) :=
  match pySplit colname with
  | t0 :: t1 :: _ => some (t0, t1)
  | _ => none

/-- `utils.inflate_cols`: split every collapsed label into its two header
levels, preserving order. -/
def inflate_cols (labels : List Str) : Option (List (Str × Str)) :=
  labels.mapM splitLabel

/-- The `prop_nan >= threshold` test of `utils.drop` for column `j`.
NumPy computes `nan_count / nrows` in floating point; on an empty table this
is 0/0 = NaN and `NaN >= threshold` is false, which the zero-row guard
models. -/
def propNanGe (t : Table) (j : Nat) (thr : ℚ) : Bool :=
  if t.rows.length = 0 then false
  else decide (thr ≤ (nanCount t j : ℚ) / (t.rows.length : ℚ))

/-- `nan_cols` of `utils.drop`: the labels of the columns whose proportion of
missing values is at least the threshold. -/
def dropNanColNames (t : Table) (thr : ℚ) : List Str :=
  ((List.range t.cols.length).filter (fun j => propNanGe t j thr)).map
    (fun j => t.cols.getD j [])

/-- The column positions surviving `data.drop(nan_cols, axis=1)` (pandas
drops columns by label). -/
def dropKeepIdx (t : Table) (thr : ℚ) : List Nat :=
  (List.range t.cols.length).filter
    (fun j => !decide (t.cols.getD j [] ∈ dropNanColNames t thr))

/-- `utils.drop`: reject an out-of-range threshold, remove the columns whose
missing proportion reaches the threshold, then remove every remaining row
containing any missing value (`dropna`). -/
def drop (t : Table) (thr : ℚ) : Except String Table :=
  if thr < 0 ∨ thr > 1 then .error "threshold outside expected limits (0 to 1.0)"
  else
    let keep := dropKeepIdx t thr
    .ok ⟨keep.map (fun j => t.cols.getD j []),
      (t.rows.map (fun r => keep.map (fun j => r.getD j none))).filter
        (fun r => !decide (none ∈ r))⟩

/-- The non-missing values of a column, in row order. -/
def nonMissing (col : List (Option ℚ)) : List ℚ := col.filterMap id

/-- Arithmetic mean (sklearn Imputer, strategy "mean"). -/
def mean_q (l : List ℚ) : ℚ := l.sum / (l.length : ℚ)

/-- Insertion into a sorted list, for the median computation. -/
def insertSorted (x : ℚ) : List ℚ → List ℚ
  | [] => [x]
  | y :: ys => if x ≤ y then x :: y :: ys else y :: insertSorted x ys

/-- Insertion sort of the non-missing values. -/
def sortQ (l : List ℚ) : List ℚ := l.foldr insertSorted []

/-- Median (sklearn Imputer, strategy "median"): middle element of the
sorted values, or the average of the two middle elements. -/
def median_q (l : List ℚ) : ℚ :=
  let s := sortQ l
  if l.length % 2 = 1 then s.getD (l.length / 2) 0
  else (s.getD (l.length / 2 - 1) 0 + s.getD (l.length / 2) 0) / 2

/-- The per-column statistic of the imputation primitive. -/
def avg_value (method : String) (l : List ℚ) : ℚ :=
  if method = "mean" then mean_q l else median_q l

/-- The `**kwargs` of a call to `utils.impute`, restricted to the
classification keywords the docstring directs at
`get_featuredata`/`get_metadata`: each field is `some` exactly when the
caller passed that keyword. -/
structure ImputeKwargs where
  metadata_string : Option Str
  pre : Option Bool
deriving DecidableEq

/-- The body of `utils.impute` below line 138, as a function of the
classification arguments that `get_featuredata(data, **kwargs)` receives:
fill the missing values of every feature-data column with the per-column
mean or median; metadata columns are untouched.  An unknown method fails
with sklearn's ValueError (raised by `fit`); an all-missing feature column
is dropped by the Imputer and the shape-mismatched assignment back into the
DataFrame fails.  Because `impute` forwards the same `**kwargs` to the
`Imputer` constructor, this body is reachable only with the default
arguments ("Metadata", prefix=True) — see `impute`. -/
def impute_resolved (t : Table) (method : String) (ms : Str) (pre : Bool) :
    Except String Table :=
  if method = "mean" ∨ method = "median" then
    let f := get_featuredata t.cols ms pre
    if (List.range t.cols.length).all
        (fun j => !decide (t.cols.getD j [] ∈ f) || !(nonMissing (colVals t j)).isEmpty)
    then
      .ok ⟨t.cols, t.rows.map (fun r =>
        (List.range t.cols.length).map (fun j =>
          if decide (t.cols.getD j [] ∈ f) then
            match r.getD j none with
            | some x => some x
            | none => some (avg_value method (nonMissing (colVals t j)))
          else r.getD j none))⟩
    else .error "shape mismatch"
  else .error "Can only use these strategies: mean, median"

/-- `utils.impute`: line 138 constructs `Imputer(strategy=method, **kwargs)`
with the same `**kwargs` that later flow into `get_featuredata`.  sklearn's
`Imputer.__init__` has the fixed signature (missing_values, strategy, axis,
verbose, copy), so a forwarded `metadata_string` or `prefix` keyword raises
TypeError before anything else runs; only a call without classification
keywords proceeds, and `get_featuredata` then uses its own defaults
("Metadata", prefix=True). -/
def impute (t : Table) (method : String) (kw : ImputeKwargs) : Except String Table :=
  if kw.metadata_string.isSome ∨ kw.pre.isSome then
    .error "__init__() got an unexpected keyword argument"
  else impute_resolved t method "Metadata".toList true

/-- Concrete table for the C4 witness: column "b" is entirely missing. -/
def tableC4 : Table := ⟨[['a'], ['b']], [[some 1, none], [some 2, none]]⟩

/-- Concrete table for the C5 witness: the spec's impute example. -/
def tableC5 : Table :=
  ⟨["Metadata_plate".toList, "Metadata_well".toList, "AreaShape_Area".toList],
    [[some 1, some 1, some 10], [some 1, some 2, none]]⟩

/-- `data[col].dropna()` for a column of a default-indexed DataFrame: the
(index, value) pairs of the non-missing entries, in index order. -/
def seriesDropna (col : List (Option ℚ)) : List (Nat × ℚ) :=
  (List.range col.length).filterMap
    (fun i => (col.getD i none).map (fun v => (i, v)))

/-- `utils.merge_two_cols`: concatenate the two dropna'd columns and reindex
like the original table (index 0..n-1).  pandas raises
"cannot reindex from a duplicate axis" when the concatenated index has a
duplicate, i.e. when some row is non-missing in both columns. -/
def merge_two_cols (n : Nat) (col1 col2 : List (Option ℚ)) :
    Except String (List (Option ℚ)) :=
  let cat := seriesDropna col1 ++ seriesDropna col2
  if (cat.map Prod.fst).Nodup then
    .ok ((List.range n).map (fun i => (cat.find? (fun p => p.1 == i)).map Prod.snd))
  else .error "cannot reindex from a duplicate axis"

/-- The non-underscore character class `[^_]` of the table-name regex. -/
def noUS (c : Char) : Bool := c != '_'

/-- Length of the run of non-underscore characters starting at position `i`. -/
def runLen (s : Str) (i : Nat) : Nat := ((s.drop i).takeWhile noUS).length

/-- The lookahead `(?=.csv)` of the table-name regex at position `p`: any
character except a newline, followed by the letters "csv". -/
def lookCsv (s : Str) (p : Nat) : Bool :=
  decide (p + 3 < s.length) && s.getD p ' ' != '\n' && s.getD (p + 1) ' ' == 'c'
    && s.getD (p + 2) ' ' == 's' && s.getD (p + 3) ' ' == 'v'

/-- Greedy backtracking of `[^_][^_]+`: the largest k with 2 ≤ k ≤ bound for
which the lookahead succeeds at i + k. -/
def tryLen (s : Str) (i : Nat) : Nat → Option Nat
  | 0 => none
  | 1 => none
  | k + 2 => if lookCsv s (i + (k + 2)) then some (k + 2) else tryLen s i (k + 1)

/-- A match of `[^_][^_]+(?=.csv)` starting exactly at position `i`. -/
def matchAt (s : Str) (i : Nat) : Option Str :=
  (tryLen s i (runLen s i)).map (fun k => (s.drop i).take k)

/-- `re.search`: scan positions left to right for the first match. -/
def searchAux (s : Str) (i : Nat) : Nat → Option Str
  | 0 => none
  | fuel + 1 =>
    match matchAt s i with
    | some m => some m
    | none => searchAux s (i + 1) fuel

/-- `re.search(ur"[^_][^_]+(?=.csv)", csv).group()` of
`create_tables.results_directory.__init__` (truncate = True); `none` models
the AttributeError raised on a non-matching filename. -/
def truncate_name (fname : Str) : Option Str := searchAux fname 0 (fname.length + 1)

/-- The per-file table-name derivation of `results_directory.__init__`. -/
def derive_name (truncate : Bool) (fname : Str) : Option Str :=
  if truncate then truncate_name fname else some fname

/-- `DataFrame.to_sql(name, con, if_exists="replace")`: replace any existing
table of that name wholesale. -/
def to_sql (db : List (Str × Table)) (nm : Str) (tab : Table) : List (Str × Table) :=
  db.filter (fun p => !decide (p.1 = nm)) ++ [(nm, tab)]

/-- `results_directory.to_db`: iterate over the discovered (path, table
name) pairs in order, read each CSV and write it to the database.  The loop
body has no try/except: an exception while reading one file propagates
immediately, aborting the remaining files and leaving the database with only
the previously written tables. -/
def to_db (readCsv : Str → Except String Table) :
    List (Str × Str) → List (Str × Table) → List (Str × Table) × Option String
  | [], db => (db, none)
  | (path, nm) :: rest, db =>
    match readCsv path with
    | .error e => (db, some e)
    | .ok tab => to_db readCsv rest (to_sql db nm tab)

/-- A concrete filesystem for the C8 witness: "bad.csv" is malformed, every
other file parses to a one-cell table. -/
def readCsvC8 : Str → Except String Table := fun p =>
  if p = "bad.csv".toList then .error "parse error" else .ok ⟨[['x']], [[some 1]]⟩

/-- State-passing rendering of a call `utils.impute(data, ...)`: the result
paired with the state of the `data` argument after the call.  Line 141 of
utils.py assigns the imputed feature columns back into `data` and line 142
returns that same object, so on success the post-call state is the returned
table; on an error raised before the assignment (a forwarded kwarg rejected
by the Imputer constructor, an invalid strategy, or the shape-mismatched
write-back) the argument is untouched. -/
def impute_call (t : Table) (method : String) (kw : ImputeKwargs) :
    Except String Table × Table :=
  match impute t method kw with
  | .ok d => (.ok d, d)
  | .error e => (.error e, t)

/-- State-passing rendering of `utils.collapse_cols`: only reads the header. -/
def collapse_cols_call (cols2 : List (Str × Str)) (sep : Str) :
    List Str × List (Str × Str) := (collapse_cols cols2 sep, cols2)

/-- State-passing rendering of `utils.inflate_cols`: only reads the labels. -/
def inflate_cols_call (labels : List Str) :
    Option (List (Str × Str)) × List Str := (inflate_cols labels, labels)

/-- State-passing rendering of `utils.img_to_metadata`: only reads the
columns, never assigns into the DataFrame. -/
def img_to_metadata_call (t : Table) (pre : Str) (extra : ExtraArg) :
    Except String (List Str) × Table := (img_to_metadata t.cols pre extra, t)

end Morar

namespace Morar

theorem getD_map_of_lt (f : Str → Str) (l : List Str) (j : Nat) (h : j < l.length) :
    (l.map f).getD j [] = f (l.getD j []) := by
  have h' : j < (l.map f).length := by simpa using h
  simp [List.getD_eq_getElem?_getD, List.getElem?_eq_getElem, h, h']

theorem startsWithAny_iff (pres : List Str) (name : Str) :
    startsWithAny pres name = true ↔ ∃ q ∈ pres, q <+: name := by
  simp [startsWithAny, List.any_eq_true]

end Morar

namespace Morar

theorem mem_filter_bool {p : Str → Bool} {l : List Str} {c : Str} :
    c ∈ l.filter p ↔ c ∈ l ∧ p c = true := List.mem_filter

/-- C1: for every set of column labels, marker string and matching policy,
`get_featuredata` and `get_metadata` are disjoint and their union is the whole
column set: every column is in exactly one of the two. -/
theorem C1_classify_partition (cols : List Str) (m : Str) (pre : Bool) :
    (∀ c, c ∈ cols ↔ (c ∈ get_featuredata cols m pre ∨ c ∈ get_metadata cols m pre)) ∧
    (∀ c, ¬ (c ∈ get_featuredata cols m pre ∧ c ∈ get_metadata cols m pre)) := by
  constructor
  · intro c
    cases pre <;>
      simp only [get_featuredata, get_metadata, if_pos, if_neg, Bool.false_eq_true,
        ite_true, ite_false, mem_filter_bool, Bool.not_eq_true'] <;>
      constructor <;> intro h
    · by_cases hc : containsSub m c = true
      · exact Or.inr ⟨h, hc⟩
      · exact Or.inl ⟨h, by simpa using hc⟩
    · rcases h with h | h <;> exact h.1
    · by_cases hc : m.isPrefixOf c = true
      · exact Or.inr ⟨h, hc⟩
      · exact Or.inl ⟨h, by simp only [Bool.eq_false_iff, Ne, ← Bool.not_eq_true]; simpa using hc⟩
    · rcases h with h | h <;> exact h.1
  · intro c h
    cases pre <;>
      simp only [get_featuredata, get_metadata, if_pos, if_neg, Bool.false_eq_true,
        ite_true, ite_false, mem_filter_bool, Bool.not_eq_true'] at h <;>
      exact absurd h.2.2 (by simp [h.1.2])

/-- Witness for C1 at a concrete column set under the prefix policy. -/
theorem C1_classify_partition_witness :
    (∀ c, c ∈ (["Metadata_a".toList, "f1".toList] : List Str) ↔
      (c ∈ get_featuredata ["Metadata_a".toList, "f1".toList] "Metadata".toList true
        ∨ c ∈ get_metadata ["Metadata_a".toList, "f1".toList] "Metadata".toList true))
    ∧ (∀ c, ¬ (c ∈ get_featuredata ["Metadata_a".toList, "f1".toList] "Metadata".toList true
        ∧ c ∈ get_metadata ["Metadata_a".toList, "f1".toList] "Metadata".toList true)) :=
  C1_classify_partition ["Metadata_a".toList, "f1".toList] "Metadata".toList true

/-- C9: `get_image_quality` returns exactly the columns whose label contains
the substring "ImageQuality"; it fails with a not-found error when no such
column exists, and with a not-a-DataFrame error when the input is not a
recognized table type. -/
theorem C9_image_quality :
    get_image_quality PandasObj.notDataFrame = .error "not a pandas DataFrame"
    ∧ ∀ t : Table,
        ((∃ c ∈ t.cols, containsSub imageQualityStr c = true) →
          ∃ l, get_image_quality (.dataFrame t) = .ok l ∧
            ∀ c, (c ∈ l ↔ c ∈ t.cols ∧ containsSub imageQualityStr c = true))
        ∧ ((∀ c ∈ t.cols, containsSub imageQualityStr c = false) →
          get_image_quality (.dataFrame t) = .error "no ImageQuality measurements found") := by
  refine ⟨rfl, fun t => ⟨fun ⟨c, hc, hsub⟩ => ?_, fun hnone => ?_⟩⟩
  · refine ⟨t.cols.filter (fun col => containsSub imageQualityStr col), ?_, ?_⟩
    · have hne : (t.cols.filter (fun col => containsSub imageQualityStr col)).length ≠ 0 := by
        simp only [ne_eq, List.length_eq_zero, List.filter_eq_nil_iff]
        intro hall
        exact absurd hsub (by simp [hall c hc])
      simp [get_image_quality, hne]
    · intro c'
      exact List.mem_filter
  · have hz : (t.cols.filter (fun col => containsSub imageQualityStr col)).length = 0 := by
      simp only [List.length_eq_zero, List.filter_eq_nil_iff]
      intro a ha
      simp [hnone a ha]
    simp [get_image_quality, hz]

/-- Witness for C9 at a concrete table with one ImageQuality column. -/
theorem C9_image_quality_witness :
    ∃ l, get_image_quality
        (.dataFrame ⟨["ImageQuality_Focus".toList, "Well".toList], []⟩) = .ok l ∧
      ∀ c, (c ∈ l ↔ c ∈ ["ImageQuality_Focus".toList, "Well".toList]
              ∧ containsSub imageQualityStr c = true) :=
  (C9_image_quality.2 ⟨["ImageQuality_Focus".toList, "Well".toList], []⟩).1
    ⟨"ImageQuality_Focus".toList, by decide, by decide⟩

/-- C7: `img_to_metadata` keeps every column label that starts with one of the
feature-data prefixes (the fixed tuple extended by the `extra` argument) and
prepends `pre` to every other label, in original order; a wrongly-typed
`extra` fails with a TypeError. -/
theorem C7_img_to_metadata (cols : List Str) (p : Str) (extra : ExtraArg) :
    (img_to_metadata cols p .badArg = .error "extra needs to be a string or a list")
    ∧ (∀ pres, feature_data_pres extra = some pres →
        ∃ out, img_to_metadata cols p extra = .ok out
          ∧ out.length = cols.length
          ∧ ∀ j, j < cols.length →
              ((∃ q ∈ pres, q <+: cols.getD j []) → out.getD j [] = cols.getD j [])
              ∧ (¬ (∃ q ∈ pres, q <+: cols.getD j []) →
                  out.getD j [] = p ++ cols.getD j []))
    ∧ (∀ t : Table, (img_to_metadata_call t p extra).2 = t) := by
  refine ⟨rfl, fun pres hpres => ?_, fun _ => rfl⟩
  refine ⟨cols.map (fun name => if startsWithAny pres name then name else p ++ name),
    by simp [img_to_metadata, hpres], by simp, fun j hj => ?_⟩
  rw [getD_map_of_lt _ _ _ hj]
  constructor
  · intro hex
    rw [if_pos ((startsWithAny_iff pres (cols.getD j [])).2 hex)]
  · intro hnex
    rw [if_neg (fun hb => hnex ((startsWithAny_iff pres (cols.getD j [])).1 hb))]

/-- Witness for C7: the spec's example columns with default settings. -/
theorem C7_img_to_metadata_witness :
    ∃ out, img_to_metadata
        ["Well".toList, "Granularity_1_DNA".toList, "Count_Cells".toList]
        "Metadata_".toList ExtraArg.noneArg = .ok out
      ∧ out.length = 3
      ∧ ∀ j, j < ([ "Well".toList, "Granularity_1_DNA".toList, "Count_Cells".toList ] :
            List Str).length →
          ((∃ q ∈ base_feature_pres,
              q <+: (["Well".toList, "Granularity_1_DNA".toList,
                "Count_Cells".toList] : List Str).getD j []) →
            out.getD j [] = (["Well".toList, "Granularity_1_DNA".toList,
              "Count_Cells".toList] : List Str).getD j [])
          ∧ (¬ (∃ q ∈ base_feature_pres,
              q <+: (["Well".toList, "Granularity_1_DNA".toList,
                "Count_Cells".toList] : List Str).getD j []) →
            out.getD j [] = "Metadata_".toList ++ (["Well".toList,
              "Granularity_1_DNA".toList, "Count_Cells".toList] : List Str).getD j []) :=
  (C7_img_to_metadata ["Well".toList, "Granularity_1_DNA".toList, "Count_Cells".toList]
    "Metadata_".toList ExtraArg.noneArg).2.1 base_feature_pres rfl

theorem pySplitAux_walk (a : Str) : ∀ (rest acc : Str), (∀ c ∈ a, pyWS c = false) →
    pySplitAux (a ++ rest) acc = pySplitAux rest (a.reverse ++ acc) := by
  induction a with
  | nil => intro rest acc _; simp
  | cons x xs ih =>
    intro rest acc ha
    have hx : pyWS x = false := ha x (by simp)
    have h1 : pySplitAux ((x :: xs) ++ rest) acc = pySplitAux (xs ++ rest) (x :: acc) := by
      simp [pySplitAux, hx]
    rw [h1, ih rest (x :: acc) (fun c hc => ha c (by simp [hc]))]
    simp [List.append_assoc]

theorem pySplitAux_nil_ne (acc : Str) (hacc : acc ≠ []) :
    pySplitAux [] acc = [acc.reverse] := by
  have h : acc.isEmpty = false := by
    cases acc
    · exact absurd rfl hacc
    · rfl
  simp [pySplitAux, h]

theorem pySplitAux_ws_cons (c : Char) (cs acc : Str) (hc : pyWS c = true) (hacc : acc ≠ []) :
    pySplitAux (c :: cs) acc = acc.reverse :: pySplitAux cs [] := by
  have h : acc.isEmpty = false := by
    cases acc
    · exact absurd rfl hacc
    · rfl
  simp [pySplitAux, hc, h]

theorem pySplit_token (b : Str) (hb : b ≠ []) (hb' : ∀ c ∈ b, pyWS c = false) :
    pySplit b = [b] := by
  unfold pySplit
  have h2 := pySplitAux_walk b [] [] hb'
  simp only [List.append_nil] at h2
  rw [h2, pySplitAux_nil_ne _ (by simp [List.reverse_eq_nil_iff, hb])]
  simp

theorem pySplit_pair (a b : Str) (ha : a ≠ []) (hb : b ≠ [])
    (ha' : ∀ c ∈ a, pyWS c = false) (hb' : ∀ c ∈ b, pyWS c = false) :
    pySplit (a ++ ' ' :: b) = [a, b] := by
  unfold pySplit
  rw [pySplitAux_walk a (' ' :: b) [] ha']
  simp only [List.append_nil]
  rw [pySplitAux_ws_cons ' ' b a.reverse (by decide)
    (by simp [List.reverse_eq_nil_iff, ha])]
  rw [show pySplitAux b [] = [b] from pySplit_token b hb hb']
  simp

theorem pyStrip_append (a mid b : Str) (ha : a ≠ []) (hb : b ≠ [])
    (ha' : ∀ c ∈ a, pyWS c = false) (hb' : ∀ c ∈ b, pyWS c = false) :
    pyStrip (a ++ mid ++ b) = a ++ mid ++ b := by
  obtain ⟨x, xs, rfl⟩ := List.exists_cons_of_ne_nil ha
  have hx : ¬ pyWS x = true := by simp [ha' x (by simp)]
  have hbr : b.reverse ≠ [] := by simpa [List.reverse_eq_nil_iff] using hb
  obtain ⟨z, zs, hzz⟩ := List.exists_cons_of_ne_nil hbr
  have hzin : z ∈ b := by rw [← List.mem_reverse, hzz]; simp
  have hz : ¬ pyWS z = true := by simp [hb' z hzin]
  unfold pyStrip
  simp only [List.append_assoc, List.cons_append]
  rw [List.dropWhile_cons_of_neg hx]
  have hrev : (x :: (xs ++ (mid ++ b))).reverse
      = z :: (zs ++ (mid.reverse ++ (xs.reverse ++ [x]))) := by
    simp [hzz, List.append_assoc]
  rw [hrev, List.dropWhile_cons_of_neg hz, ← hrev, List.reverse_reverse]

/-- C3 counterexample: with the default separator "_", collapsing the
two-level header [("a","b")] yields the single label "a_b", whose
whitespace-based split has only one token, so inflating fails (IndexError)
instead of returning the original header. -/
theorem C3_counterexample :
    collapse_cols [((['a'] : Str), (['b'] : Str))] ['_'] = [['a', '_', 'b']]
    ∧ inflate_cols (collapse_cols [((['a'] : Str), (['b'] : Str))] ['_']) = none := by
  constructor <;> decide

/-- C3 (amended): for every two-level header whose tokens are nonempty and
contain no whitespace, collapsing with a single-space separator and then
inflating returns the original two-level header in order; with the default
separator "_" the inflate step always fails on a nonempty header. -/
theorem C3_roundtrip (cols2 : List (Str × Str))
    (h : ∀ p ∈ cols2, p.1 ≠ [] ∧ p.2 ≠ [] ∧ (∀ c ∈ p.1, pyWS c = false)
          ∧ (∀ c ∈ p.2, pyWS c = false)) :
    inflate_cols (collapse_cols cols2 [' ']) = some cols2
    ∧ (cols2 ≠ [] → inflate_cols (collapse_cols cols2 ['_']) = none) := by
  constructor
  · induction cols2 with
    | nil => rfl
    | cons p rest ih =>
      obtain ⟨h1, h2, h3, h4⟩ := h p (by simp)
      have hstrip : pyStrip (p.1 ++ [' '] ++ p.2) = p.1 ++ [' '] ++ p.2 :=
        pyStrip_append p.1 [' '] p.2 h1 h2 h3 h4
      have hsplit : splitLabel (p.1 ++ [' '] ++ p.2) = some (p.1, p.2) := by
        unfold splitLabel
        rw [show p.1 ++ [' '] ++ p.2 = p.1 ++ ' ' :: p.2 by simp]
        rw [pySplit_pair p.1 p.2 h1 h2 h3 h4]
      have ihr := ih (fun q hq => h q (by simp [hq]))
      simp only [collapse_cols, inflate_cols] at ihr
      simp only [collapse_cols, List.map_cons, inflate_cols, List.mapM_cons]
      rw [hstrip, hsplit, ihr]
      simp
  · intro hne
    obtain ⟨q, rest, rfl⟩ := List.exists_cons_of_ne_nil hne
    obtain ⟨h1, h2, h3, h4⟩ := h q (by simp)
    have hall : ∀ c ∈ q.1 ++ ['_'] ++ q.2, pyWS c = false := by
      intro c hc
      rcases List.mem_append.1 hc with hc1 | hc2
      · rcases List.mem_append.1 hc1 with hc3 | hc4
        · exact h3 c hc3
        · simp only [List.mem_singleton] at hc4
          subst hc4
          decide
      · exact h4 c hc2
    have hne1 : q.1 ++ ['_'] ++ q.2 ≠ [] := by
      intro hcon
      exact h1 (List.append_eq_nil.1 (List.append_eq_nil.1 hcon).1).1
    have hsplit : splitLabel (q.1 ++ ['_'] ++ q.2) = none := by
      unfold splitLabel
      rw [pySplit_token _ hne1 hall]
    have hstrip : pyStrip (q.1 ++ ['_'] ++ q.2) = q.1 ++ ['_'] ++ q.2 :=
      pyStrip_append q.1 ['_'] q.2 h1 h2 h3 h4
    simp only [collapse_cols, List.map_cons, inflate_cols, List.mapM_cons]
    rw [hstrip, hsplit]
    simp

/-- Witness for C3 at the concrete header [("a","b")]. -/
theorem C3_roundtrip_witness :
    inflate_cols (collapse_cols [((['a'] : Str), (['b'] : Str))] [' ']) =
        some [((['a'] : Str), (['b'] : Str))]
    ∧ ([((['a'] : Str), (['b'] : Str))] ≠ ([] : List (Str × Str)) →
        inflate_cols (collapse_cols [((['a'] : Str), (['b'] : Str))] ['_']) = none) :=
  C3_roundtrip [((['a'] : Str), (['b'] : Str))] (by decide)

theorem getD_inj_of_nodup {l : List Str} (hnd : l.Nodup) {i j : Nat}
    (hi : i < l.length) (hj : j < l.length) (h : l.getD i [] = l.getD j []) : i = j := by
  have h' : l[i] = l[j] := by
    simpa [List.getD_eq_getElem?_getD, List.getElem?_eq_getElem, hi, hj] using h
  exact (List.Nodup.getElem_inj_iff hnd).1 h'

theorem nanCount_le (t : Table) (j : Nat) : nanCount t j ≤ t.rows.length := by
  calc nanCount t j ≤ (colVals t j).length := List.length_filter_le _ _
  _ = t.rows.length := by simp [colVals]

theorem mem_nanColNames (t : Table) (thr : ℚ) (hnd : t.cols.Nodup) {j : Nat}
    (hj : j < t.cols.length) :
    (t.cols.getD j [] ∈ dropNanColNames t thr) ↔ propNanGe t j thr = true := by
  simp only [dropNanColNames, List.mem_map, List.mem_filter, List.mem_range]
  constructor
  · rintro ⟨j', ⟨hj', htrue⟩, heq⟩
    rwa [getD_inj_of_nodup hnd hj' hj heq] at htrue
  · intro htrue
    exact ⟨j, ⟨hj, htrue⟩, rfl⟩

theorem mem_dropKeepIdx (t : Table) (thr : ℚ) (hnd : t.cols.Nodup) {j : Nat}
    (hj : j < t.cols.length) :
    (j ∈ dropKeepIdx t thr ↔ propNanGe t j thr = false) := by
  simp only [dropKeepIdx, List.mem_filter, List.mem_range, Bool.not_eq_true',
    decide_eq_false_iff_not]
  rw [mem_nanColNames t thr hnd hj]
  constructor
  · rintro ⟨-, hne⟩
    exact Bool.not_eq_true _ ▸ (by simpa using hne)
  · intro hfalse
    exact ⟨hj, by simp [hfalse]⟩

theorem propNanGe_false_iff (t : Table) (j : Nat) (thr : ℚ) (h0 : 0 < t.rows.length) :
    propNanGe t j thr = false ↔ (nanCount t j : ℚ) / (t.rows.length : ℚ) < thr := by
  have hne : t.rows.length ≠ 0 := Nat.pos_iff_ne_zero.1 h0
  simp [propNanGe, hne, not_le]

theorem getD_mem_keep_map_iff (t : Table) (thr : ℚ) (hnd : t.cols.Nodup) {j : Nat}
    (hj : j < t.cols.length) :
    t.cols.getD j [] ∈ (dropKeepIdx t thr).map (fun i => t.cols.getD i []) ↔
      j ∈ dropKeepIdx t thr := by
  constructor
  · intro hmem
    simp only [List.mem_map] at hmem
    obtain ⟨j', hj'k, heq⟩ := hmem
    have hj' : j' < t.cols.length := by
      have := List.mem_filter.1 hj'k
      simpa using List.mem_range.1 this.1
    rwa [getD_inj_of_nodup hnd hj' hj heq] at hj'k
  · intro hk
    exact List.mem_map.2 ⟨j, hk, rfl⟩

/-- C4: `drop` fails with a ValueError for thresholds outside [0,1]; inside
[0,1] it first removes exactly the columns whose missing-value proportion
reaches the threshold, then removes from the column-reduced table exactly
the rows containing any missing value; with threshold 1 a column without
missing values is never removed, and with threshold 0 every column with a
missing value is removed. -/
theorem C4_drop (t : Table) (thr : ℚ) (hnd : t.cols.Nodup) :
    ((thr < 0 ∨ 1 < thr) → drop t thr = .error "threshold outside expected limits (0 to 1.0)")
    ∧ (0 ≤ thr → thr ≤ 1 → ∃ d, drop t thr = .ok d
        ∧ (0 < t.rows.length →
            (∀ j, j < t.cols.length →
              (t.cols.getD j [] ∈ d.cols ↔
                (nanCount t j : ℚ) / (t.rows.length : ℚ) < thr))
            ∧ d.rows = (t.rows.filter (fun r =>
                  !decide (∃ i ∈ (List.range t.cols.length).filter (fun j =>
                      decide ((nanCount t j : ℚ) / (t.rows.length : ℚ) < thr)),
                    r.getD i none = none))).map (fun r =>
                ((List.range t.cols.length).filter (fun j =>
                    decide ((nanCount t j : ℚ) / (t.rows.length : ℚ) < thr))).map
                  (fun i => r.getD i none)))
        ∧ (thr = 1 → ∀ j, j < t.cols.length → nanCount t j = 0 →
            t.cols.getD j [] ∈ d.cols)
        ∧ (thr = 0 → ∀ j, j < t.cols.length → 0 < nanCount t j →
            t.cols.getD j [] ∉ d.cols)) := by
  constructor
  · intro hout
    rw [drop, if_pos hout]
  · intro hlo hhi
    have hcond : ¬ (thr < 0 ∨ thr > 1) := by
      push_neg
      exact ⟨hlo, hhi⟩
    refine ⟨⟨(dropKeepIdx t thr).map (fun i => t.cols.getD i []),
      (t.rows.map (fun r => (dropKeepIdx t thr).map (fun i => r.getD i none))).filter
        (fun r => !decide (none ∈ r))⟩, by rw [drop, if_neg hcond], ?_, ?_, ?_⟩
    · intro h0
      have hKeq : dropKeepIdx t thr = (List.range t.cols.length).filter (fun j =>
          decide ((nanCount t j : ℚ) / (t.rows.length : ℚ) < thr)) := by
        apply List.filter_congr
        intro j hjr
        have hj : j < t.cols.length := List.mem_range.1 hjr
        rw [Bool.eq_iff_iff]
        simp only [Bool.not_eq_true', decide_eq_false_iff_not, decide_eq_true_eq]
        rw [mem_nanColNames t thr hnd hj, Bool.not_eq_true]
        exact propNanGe_false_iff t j thr h0
      constructor
      · intro j hj
        simp only
        rw [getD_mem_keep_map_iff t thr hnd hj, mem_dropKeepIdx t thr hnd hj,
          propNanGe_false_iff t j thr h0]
      · simp only
        rw [hKeq, List.filter_map]
        congr 1
        apply List.filter_congr
        intro r hr
        simp only [Function.comp_apply]
        congr 1
        rw [decide_eq_decide]
        exact List.mem_map
    · intro h1eq j hj hzero
      subst h1eq
      simp only
      rw [getD_mem_keep_map_iff t 1 hnd hj, mem_dropKeepIdx t 1 hnd hj]
      by_cases hrow : t.rows.length = 0
      · simp [propNanGe, hrow]
      · simp only [propNanGe]
        rw [if_neg hrow]
        simp only [hzero, Nat.cast_zero, zero_div, decide_eq_false_iff_not, not_le]
        norm_num
    · intro h0eq j hj hpos
      subst h0eq
      simp only
      rw [getD_mem_keep_map_iff t 0 hnd hj, mem_dropKeepIdx t 0 hnd hj]
      have hrow : t.rows.length ≠ 0 := by
        intro hcon
        have hle := nanCount_le t j
        omega
      simp only [propNanGe]
      rw [if_neg hrow]
      simp only [Bool.not_eq_false, decide_eq_true_eq]
      positivity

/-- Witness for C4 at a concrete table (one complete column, one entirely
missing column) with the default threshold 1. -/
theorem C4_drop_witness :
    (((1:ℚ) < 0 ∨ 1 < (1:ℚ)) →
      drop tableC4 1 = .error "threshold outside expected limits (0 to 1.0)")
    ∧ ((0:ℚ) ≤ 1 → (1:ℚ) ≤ 1 → ∃ d, drop tableC4 1 = .ok d
        ∧ (0 < tableC4.rows.length →
            (∀ j, j < tableC4.cols.length →
              (tableC4.cols.getD j [] ∈ d.cols ↔
                (nanCount tableC4 j : ℚ) / (tableC4.rows.length : ℚ) < 1))
            ∧ d.rows = (tableC4.rows.filter (fun r =>
                  !decide (∃ i ∈ (List.range tableC4.cols.length).filter (fun j =>
                      decide ((nanCount tableC4 j : ℚ) / (tableC4.rows.length : ℚ) < 1)),
                    r.getD i none = none))).map (fun r =>
                ((List.range tableC4.cols.length).filter (fun j =>
                    decide ((nanCount tableC4 j : ℚ) / (tableC4.rows.length : ℚ) < 1))).map
                  (fun i => r.getD i none)))
        ∧ ((1:ℚ) = 1 → ∀ j, j < tableC4.cols.length → nanCount tableC4 j = 0 →
            tableC4.cols.getD j [] ∈ d.cols)
        ∧ ((1:ℚ) = 0 → ∀ j, j < tableC4.cols.length → 0 < nanCount tableC4 j →
            tableC4.cols.getD j [] ∉ d.cols)) :=
  C4_drop tableC4 1 (by decide)

theorem getD_map_range (n j : Nat) (h : j < n) (f : Nat → Option ℚ) :
    ((List.range n).map f).getD j none = f j := by
  have hr : j < (List.range n).length := by simpa using h
  simp [List.getD_eq_getElem?_getD, List.getElem?_eq_getElem hr]

theorem mem_metadata_not_feature {cols : List Str} {ms c : Str} {pre : Bool}
    (h : c ∈ get_metadata cols ms pre) : c ∉ get_featuredata cols ms pre := by
  intro hf
  cases pre <;>
    simp only [get_metadata, get_featuredata, ite_true, ite_false, Bool.false_eq_true,
      if_pos, if_neg] at h hf <;>
  · have h1 := (List.mem_filter.1 h).2
    have h2 := (List.mem_filter.1 hf).2
    simp [h1] at h2

theorem impute_resolved_spec (t : Table) (method : String) (ms : Str) (pre : Bool) :
    (¬ (method = "mean" ∨ method = "median") →
      impute_resolved t method ms pre = .error "Can only use these strategies: mean, median")
    ∧ ((method = "mean" ∨ method = "median") →
      (∀ j, j < t.cols.length → t.cols.getD j [] ∈ get_featuredata t.cols ms pre →
        nonMissing (colVals t j) ≠ []) →
      ∃ d, impute_resolved t method ms pre = .ok d
        ∧ d.cols = t.cols
        ∧ (∀ j, j < t.cols.length → t.cols.getD j [] ∈ get_metadata t.cols ms pre →
            colVals d j = colVals t j)
        ∧ (∀ j, j < t.cols.length → t.cols.getD j [] ∈ get_featuredata t.cols ms pre →
            (∀ v ∈ colVals d j, v ≠ none)
            ∧ colVals d j = (colVals t j).map (fun v =>
                match v with
                | some x => some x
                | none => some (avg_value method (nonMissing (colVals t j)))))) := by
  constructor
  · intro hbad
    rw [impute_resolved, if_neg hbad]
  · intro hm hne
    have hall : (List.range t.cols.length).all
        (fun j => !decide (t.cols.getD j [] ∈ get_featuredata t.cols ms pre)
          || !(nonMissing (colVals t j)).isEmpty) = true := by
      apply List.all_eq_true.2
      intro j hjr
      have hj : j < t.cols.length := List.mem_range.1 hjr
      rcases hd : decide (t.cols.getD j [] ∈ get_featuredata t.cols ms pre) with _ | _
      · simp
      · have hmem := of_decide_eq_true hd
        have hnn := hne j hj hmem
        have hemp : (nonMissing (colVals t j)).isEmpty = false := by
          cases hcc : nonMissing (colVals t j)
          · exact absurd hcc hnn
          · rfl
        simp [hemp]
    refine ⟨⟨t.cols, t.rows.map (fun r =>
        (List.range t.cols.length).map (fun j =>
          if decide (t.cols.getD j [] ∈ get_featuredata t.cols ms pre) then
            match r.getD j none with
            | some x => some x
            | none => some (avg_value method (nonMissing (colVals t j)))
          else r.getD j none))⟩, ?_, rfl, ?_, ?_⟩
    · simp only [impute_resolved]
      rw [if_pos hm, if_pos hall]
    · intro j hj hmeta
      have hnotf := mem_metadata_not_feature hmeta
      simp only [colVals, List.map_map]
      apply List.map_congr_left
      intro r hr
      simp only [Function.comp_apply]
      rw [getD_map_range _ _ hj, if_neg (by simpa using hnotf)]
    · intro j hj hf
      have hcv : colVals ⟨t.cols, t.rows.map (fun r =>
          (List.range t.cols.length).map (fun j =>
            if decide (t.cols.getD j [] ∈ get_featuredata t.cols ms pre) then
              match r.getD j none with
              | some x => some x
              | none => some (avg_value method (nonMissing (colVals t j)))
            else r.getD j none))⟩ j
          = (colVals t j).map (fun v =>
              match v with
              | some x => some x
              | none => some (avg_value method (nonMissing (colVals t j)))) := by
        simp only [colVals, List.map_map]
        apply List.map_congr_left
        intro r hr
        simp only [Function.comp_apply]
        rw [getD_map_range _ _ hj, if_pos (by simpa using hf)]
      refine ⟨?_, hcv⟩
      rw [hcv]
      intro v hv
      simp only [List.mem_map] at hv
      obtain ⟨w, hw, hweq⟩ := hv
      intro hcon
      rw [hcon] at hweq
      cases w <;> exact Option.noConfusion hweq

/-- C5 counterexample: with an explicit marker keyword (metadata_string =
"Foo") under which every feature column of the example table has a
non-missing value — so the claim promises a successful imputation — the
forwarded kwarg is rejected by the sklearn Imputer constructor with a
TypeError, and nothing is imputed. -/
theorem C5_counterexample :
    impute tableC5 "median" ⟨some "Foo".toList, none⟩
      = .error "__init__() got an unexpected keyword argument"
    ∧ (∀ j, j < tableC5.cols.length →
        tableC5.cols.getD j [] ∈ get_featuredata tableC5.cols "Foo".toList true →
        nonMissing (colVals tableC5 j) ≠ []) :=
  ⟨rfl, by decide⟩

/-- C5 (amended): `impute` forwards its classification kwargs to the sklearn
Imputer constructor, whose fixed signature rejects them, so any explicit
marker/prefix keyword fails with a TypeError and imputation can only run
with the default classification ("Metadata", prefix=True).  In that default
configuration, for a supported method and a table whose feature columns
each have a non-missing value, `impute` fills every missing feature value
with the per-column mean or median and leaves every metadata column
unchanged, so no feature column retains a missing value; an unsupported
method fails with a ValueError. -/
theorem C5_impute_amended (t : Table) (method : String) :
    (∀ kw : ImputeKwargs, (kw.metadata_string.isSome ∨ kw.pre.isSome) →
      impute t method kw = .error "__init__() got an unexpected keyword argument")
    ∧ (¬ (method = "mean" ∨ method = "median") →
      impute t method ⟨none, none⟩ = .error "Can only use these strategies: mean, median")
    ∧ ((method = "mean" ∨ method = "median") →
      (∀ j, j < t.cols.length →
        t.cols.getD j [] ∈ get_featuredata t.cols "Metadata".toList true →
        nonMissing (colVals t j) ≠ []) →
      ∃ d, impute t method ⟨none, none⟩ = .ok d
        ∧ d.cols = t.cols
        ∧ (∀ j, j < t.cols.length →
            t.cols.getD j [] ∈ get_metadata t.cols "Metadata".toList true →
            colVals d j = colVals t j)
        ∧ (∀ j, j < t.cols.length →
            t.cols.getD j [] ∈ get_featuredata t.cols "Metadata".toList true →
            (∀ v ∈ colVals d j, v ≠ none)
            ∧ colVals d j = (colVals t j).map (fun v =>
                match v with
                | some x => some x
                | none => some (avg_value method (nonMissing (colVals t j)))))) := by
  have hdef : ¬ ((⟨none, none⟩ : ImputeKwargs).metadata_string.isSome
      ∨ (⟨none, none⟩ : ImputeKwargs).pre.isSome) := by simp
  refine ⟨?_, ?_, ?_⟩
  · intro kw hkw
    rw [impute, if_pos hkw]
  · intro hbad
    rw [impute, if_neg hdef]
    exact (impute_resolved_spec t method "Metadata".toList true).1 hbad
  · intro hm hne
    rw [impute, if_neg hdef]
    exact (impute_resolved_spec t method "Metadata".toList true).2 hm hne

/-- Witness for C5: the spec's impute example table, method "median", no
classification kwargs. -/
theorem C5_impute_amended_witness :
    ∃ d, impute tableC5 "median" ⟨none, none⟩ = .ok d
      ∧ d.cols = tableC5.cols
      ∧ (∀ j, j < tableC5.cols.length →
          tableC5.cols.getD j [] ∈ get_metadata tableC5.cols "Metadata".toList true →
          colVals d j = colVals tableC5 j)
      ∧ (∀ j, j < tableC5.cols.length →
          tableC5.cols.getD j [] ∈ get_featuredata tableC5.cols "Metadata".toList true →
          (∀ v ∈ colVals d j, v ≠ none)
          ∧ colVals d j = (colVals tableC5 j).map (fun v =>
              match v with
              | some x => some x
              | none => some (avg_value "median" (nonMissing (colVals tableC5 j))))) :=
  (C5_impute_amended tableC5 "median").2.2 (Or.inr rfl) (by decide)

theorem mem_seriesDropna (col : List (Option ℚ)) (p : Nat × ℚ) :
    p ∈ seriesDropna col ↔ p.1 < col.length ∧ col.getD p.1 none = some p.2 := by
  simp only [seriesDropna, List.mem_filterMap, List.mem_range, Option.map_eq_some']
  constructor
  · rintro ⟨i, hi, v, hv, rfl⟩
    exact ⟨hi, hv⟩
  · rintro ⟨hp, hv⟩
    exact ⟨p.1, hp, p.2, hv, rfl⟩

theorem map_fst_seriesDropna (col : List (Option ℚ)) :
    (seriesDropna col).map Prod.fst
      = (List.range col.length).filter (fun i => (col.getD i none).isSome) := by
  unfold seriesDropna
  generalize List.range col.length = l
  induction l with
  | nil => rfl
  | cons x xs ih =>
    cases hx : col.getD x none with
    | none =>
      simp [List.filterMap_cons, List.filter_cons, hx, ih, -List.getD_eq_getElem?_getD]
    | some v =>
      simp [List.filterMap_cons, List.filter_cons, hx, ih, -List.getD_eq_getElem?_getD]

theorem nodup_fst_seriesDropna (col : List (Option ℚ)) :
    ((seriesDropna col).map Prod.fst).Nodup := by
  rw [map_fst_seriesDropna]
  exact (List.nodup_range _).filter _

theorem find?_seriesDropna_of_some {col : List (Option ℚ)} {i : Nat} {v : ℚ}
    (hi : i < col.length) (hv : col.getD i none = some v) :
    (seriesDropna col).find? (fun p => p.1 == i) = some (i, v) := by
  rcases hfind : (seriesDropna col).find? (fun p => p.1 == i) with _ | p
  · exfalso
    rw [List.find?_eq_none] at hfind
    exact hfind (i, v) ((mem_seriesDropna col (i, v)).2 ⟨hi, hv⟩) (by simp)
  · have hp1 : p.1 = i := by simpa using List.find?_some hfind
    have hpmem := (mem_seriesDropna col p).1 (List.mem_of_find?_eq_some hfind)
    have hvv : some p.2 = some v := by rw [← hpmem.2, hp1, hv]
    have : p = (i, v) := by
      obtain ⟨p1, p2⟩ := p
      simp only at hp1 hvv
      simp [hp1, Option.some_inj.1 hvv]
    rw [this] at hfind
    exact hfind

theorem find?_seriesDropna_of_none {col : List (Option ℚ)} {i : Nat}
    (hv : col.getD i none = none) :
    (seriesDropna col).find? (fun p => p.1 == i) = none := by
  rw [List.find?_eq_none]
  intro p hp hbeq
  have h1 := (mem_seriesDropna col p).1 hp
  have : p.1 = i := by simpa using hbeq
  rw [this, hv] at h1
  exact Option.noConfusion h1.2

/-- C6 counterexample: a row in which both columns are non-missing makes
`merge_two_cols` raise pandas' duplicate-reindex ValueError instead of
letting the second column's value win. -/
theorem C6_counterexample :
    merge_two_cols 2 [some 1, some 2] [some 3, none]
      = .error "cannot reindex from a duplicate axis" := by
  rfl

/-- C6 (amended): when every row has exactly one non-missing value among the
two columns, `merge_two_cols` returns the row-wise coalesce of the two
columns, with length equal to the row count; when some row is non-missing in
both columns the merge fails with pandas' duplicate-reindex ValueError
(the second column's value does not win). -/
theorem C6_merge (n : Nat) (col1 col2 : List (Option ℚ))
    (h1 : col1.length = n) (h2 : col2.length = n) :
    ((∀ i, i < n → ((col1.getD i none).isSome ↔ ¬ (col2.getD i none).isSome)) →
      ∃ res, merge_two_cols n col1 col2 = .ok res
        ∧ res.length = n
        ∧ res = (List.range n).map (fun i =>
            (col1.getD i none).or (col2.getD i none)))
    ∧ ((∃ i, i < n ∧ (col1.getD i none).isSome ∧ (col2.getD i none).isSome) →
      merge_two_cols n col1 col2 = .error "cannot reindex from a duplicate axis") := by
  constructor
  · intro hxor
    have hnd : (((seriesDropna col1 ++ seriesDropna col2).map Prod.fst)).Nodup := by
      rw [List.map_append]
      refine (nodup_fst_seriesDropna col1).append (nodup_fst_seriesDropna col2) ?_
      intro i hi1 hi2
      rw [map_fst_seriesDropna] at hi1 hi2
      have hs1 := (List.mem_filter.1 hi1).2
      have hs2 := (List.mem_filter.1 hi2).2
      have hilt : i < n := h1 ▸ List.mem_range.1 (List.mem_filter.1 hi1).1
      have := (hxor i hilt).1 (by simpa using hs1)
      exact this (by simpa using hs2)
    refine ⟨_, by rw [merge_two_cols, if_pos hnd], by simp, ?_⟩
    apply List.map_congr_left
    intro i hir
    have hi : i < n := List.mem_range.1 hir
    rw [List.find?_append]
    cases hc1 : col1.getD i none with
    | some v =>
      rw [find?_seriesDropna_of_some (h1 ▸ hi) hc1]
      simp [Option.or]
    | none =>
      have hs2 : (col2.getD i none).isSome := by
        by_contra hcon
        have hA := (hxor i hi).2 hcon
        rw [hc1] at hA
        simp at hA
      obtain ⟨w, hw⟩ := Option.isSome_iff_exists.1 hs2
      rw [find?_seriesDropna_of_none hc1, find?_seriesDropna_of_some (h2 ▸ hi) hw, hw]
      simp [Option.or]
  · rintro ⟨i, hi, hs1, hs2⟩
    rw [merge_two_cols, if_neg]
    intro hnd
    rw [List.map_append] at hnd
    have hdisj := List.disjoint_of_nodup_append hnd
    have hm1 : i ∈ (seriesDropna col1).map Prod.fst := by
      rw [map_fst_seriesDropna]
      exact List.mem_filter.2 ⟨List.mem_range.2 (h1 ▸ hi), by simpa using hs1⟩
    have hm2 : i ∈ (seriesDropna col2).map Prod.fst := by
      rw [map_fst_seriesDropna]
      exact List.mem_filter.2 ⟨List.mem_range.2 (h2 ▸ hi), by simpa using hs2⟩
    exact hdisj hm1 hm2

/-- Witness for C6 at two concrete mutually-exclusive columns. -/
theorem C6_merge_witness :
    ((∀ i, i < 2 → ((([some (1:ℚ), none] : List (Option ℚ)).getD i none).isSome ↔
        ¬ (([none, some (5:ℚ)] : List (Option ℚ)).getD i none).isSome)) →
      ∃ res, merge_two_cols 2 [some (1:ℚ), none] [none, some (5:ℚ)] = .ok res
        ∧ res.length = 2
        ∧ res = (List.range 2).map (fun i =>
            (([some (1:ℚ), none] : List (Option ℚ)).getD i none).or
              (([none, some (5:ℚ)] : List (Option ℚ)).getD i none)))
    ∧ ((∃ i, i < 2 ∧ (([some (1:ℚ), none] : List (Option ℚ)).getD i none).isSome
          ∧ (([none, some (5:ℚ)] : List (Option ℚ)).getD i none).isSome) →
      merge_two_cols 2 [some (1:ℚ), none] [none, some (5:ℚ)]
        = .error "cannot reindex from a duplicate axis") :=
  C6_merge 2 [some (1:ℚ), none] [none, some (5:ℚ)] rfl rfl

theorem getD_drop' (s : Str) (p k : Nat) (d : Char) :
    (s.drop p).getD k d = s.getD (p + k) d := by
  simp [List.getD_eq_getElem?_getD, List.getElem?_drop]

theorem takeWhile_getD {p : Char → Bool} :
    ∀ (l : Str) (n : Nat) (d : Char), n < (l.takeWhile p).length →
      p (l.getD n d) = true := by
  intro l
  induction l with
  | nil => intro n d h; simp [List.takeWhile_nil] at h
  | cons x xs ih =>
    intro n d h
    rcases hx : p x with _ | _
    · rw [List.takeWhile_cons_of_neg (by simp [hx])] at h
      simp at h
    · rw [List.takeWhile_cons_of_pos hx] at h
      cases n with
      | zero => simpa using hx
      | succ m =>
        simp only [List.length_cons, Nat.succ_lt_succ_iff] at h
        simpa using ih m d h

theorem tryLen_none (s : Str) (i : Nat) :
    ∀ K, (∀ k, 2 ≤ k → k ≤ K → lookCsv s (i + k) = false) → tryLen s i K = none := by
  intro K
  induction K with
  | zero => intro _; rfl
  | succ n ih =>
    intro h
    cases n with
    | zero => rfl
    | succ m =>
      rw [tryLen]
      rw [h (m + 2) (by omega) le_rfl]
      simp only [Bool.false_eq_true, if_false]
      exact ih (fun k h2 hk => h k h2 (by omega))

theorem tryLen_some (s : Str) (i k0 : Nat) (hlook : lookCsv s (i + k0) = true)
    (h2 : 2 ≤ k0) :
    ∀ K, k0 ≤ K → (∀ k, k0 < k → k ≤ K → lookCsv s (i + k) = false) →
      tryLen s i K = some k0 := by
  intro K
  induction K with
  | zero => intro hk0 _; omega
  | succ n ih =>
    intro hk0 hfalse
    cases n with
    | zero => omega
    | succ m =>
      rw [tryLen]
      by_cases heq : k0 = m + 2
      · rw [← heq, hlook]
        simp
      · have hlt : k0 ≤ m + 1 := by omega
        rw [hfalse (m + 2) (by omega) le_rfl]
        simp only [Bool.false_eq_true, if_false]
        exact ih hlt (fun k hk1 hk2 => hfalse k hk1 (by omega))

theorem searchAux_spec (s : Str) (i0 : Nat) (m : Str)
    (hnone : ∀ j, j < i0 → matchAt s j = none) (hm : matchAt s i0 = some m) :
    ∀ fuel i, i ≤ i0 → i0 < i + fuel → searchAux s i fuel = some m := by
  intro fuel
  induction fuel with
  | zero => intro i hle hlt; omega
  | succ f ih =>
    intro i hle hlt
    rw [searchAux]
    by_cases hii : i = i0
    · subst hii
      rw [hm]
    · rw [hnone i (by omega)]
      exact ih (i + 1) (by omega) (by omega)

/-- C2 counterexample: the filename "cell.csv" has no underscore before the
extension, yet truncate-mode derivation succeeds and yields "cell" rather
than failing. -/
theorem C2_counterexample :
    derive_name true "cell.csv".toList = some "cell".toList
    ∧ ('_' ∈ "cell.csv".toList → False) := by
  constructor <;> decide

/-- C2 (amended): with truncate = true, for a filename of the form
`u ++ "_" ++ b ++ ".csv"` in which b (the segment after the last underscore)
has at least two characters and contains no underscore, and in which the
letter sequence "csv" occurs nowhere except in the final extension, the
derived table name is exactly b.  (Derivation does not fail on filenames
without an underscore — see the counterexample — and fails, with an
AttributeError rather than a ClassificationError, exactly when the regex
finds no two-character non-underscore run before an occurrence of "csv".) -/
theorem C2_truncate_general (u b : Str) (hb2 : 2 ≤ b.length)
    (hbU : ∀ c ∈ b, c ≠ '_')
    (honly : ∀ q, q < (u ++ '_' :: (b ++ ['.', 'c', 's', 'v'])).length →
        (u ++ '_' :: (b ++ ['.', 'c', 's', 'v'])).getD q ' ' = 'c' →
        (u ++ '_' :: (b ++ ['.', 'c', 's', 'v'])).getD (q + 1) ' ' = 's' →
        (u ++ '_' :: (b ++ ['.', 'c', 's', 'v'])).getD (q + 2) ' ' = 'v' →
        q = u.length + b.length + 2) :
    derive_name true (u ++ '_' :: (b ++ ['.', 'c', 's', 'v'])) = some b := by
  set s : Str := u ++ '_' :: (b ++ ['.', 'c', 's', 'v']) with hs
  have hlen : s.length = u.length + b.length + 5 := by
    rw [hs]
    simp only [List.length_append, List.length_cons, List.length_nil]
    omega
  have hdrop4 : s.drop (u.length + 1) = b ++ ['.', 'c', 's', 'v'] := by
    have hsplit1 : s = (u ++ ['_']) ++ (b ++ ['.', 'c', 's', 'v']) := by
      rw [hs]
      simp
    rw [hsplit1]
    exact List.drop_left' (by simp)
  have hdrop3 : s.drop (u.length + 1 + b.length) = ['.', 'c', 's', 'v'] := by
    have hsplit2 : s = (u ++ '_' :: b) ++ ['.', 'c', 's', 'v'] := by
      rw [hs]
      simp
    rw [hsplit2]
    exact List.drop_left' (by
      simp only [List.length_append, List.length_cons]
      omega)
  have hgetdU : s.getD u.length ' ' = '_' := by
    have h1 := getD_drop' s u.length 0 ' '
    have h2 : s.drop u.length = '_' :: (b ++ ['.', 'c', 's', 'v']) := by
      rw [hs]
      exact List.drop_left' rfl
    rw [h2] at h1
    simpa using h1.symm
  have hv : ∀ k, k < 4 → s.getD (u.length + 1 + b.length + k) ' '
      = ['.', 'c', 's', 'v'].getD k ' ' := by
    intro k hk
    have h1 := getD_drop' s (u.length + 1 + b.length) k ' '
    rw [hdrop3] at h1
    exact h1.symm
  have hlook_iff : ∀ p, lookCsv s p = true ↔ p = u.length + 1 + b.length := by
    intro p
    constructor
    · intro h
      simp only [lookCsv, Bool.and_eq_true, decide_eq_true_eq, bne_iff_ne, ne_eq,
        beq_iff_eq] at h
      obtain ⟨⟨⟨⟨hb0, hb1⟩, hcc⟩, hss⟩, hvv⟩ := h
      have hq := honly (p + 1) (by omega) hcc hss hvv
      omega
    · intro hp
      subst hp
      have hv0 := hv 0 (by omega)
      have hv1 := hv 1 (by omega)
      have hv2 := hv 2 (by omega)
      have hv3 := hv 3 (by omega)
      simp only [Nat.add_zero] at hv0
      simp only [lookCsv, Bool.and_eq_true, decide_eq_true_eq, bne_iff_ne, ne_eq,
        beq_iff_eq]
      refine ⟨⟨⟨⟨by omega, ?_⟩, ?_⟩, ?_⟩, ?_⟩
      · rw [hv0]
        decide
      · rw [hv1]
        rfl
      · rw [hv2]
        rfl
      · rw [hv3]
        rfl
  have hrunU : ∀ i, i ≤ u.length → i + runLen s i ≤ u.length := by
    intro i hi
    by_contra hcon
    push_neg at hcon
    have hn : u.length - i < runLen s i := by omega
    have hpw := takeWhile_getD (s.drop i) (u.length - i) ' ' hn
    rw [getD_drop'] at hpw
    have hui : i + (u.length - i) = u.length := by omega
    rw [hui, hgetdU] at hpw
    simp [noUS] at hpw
  have hrunB : runLen s (u.length + 1) = b.length + 4 := by
    unfold runLen
    rw [hdrop4]
    rw [List.takeWhile_append_of_pos (by
      intro c hc
      simp [noUS, hbU c hc])]
    have h4 : List.takeWhile noUS ['.', 'c', 's', 'v'] = ['.', 'c', 's', 'v'] := by decide
    rw [h4]
    simp
  have hMnone : ∀ i, i ≤ u.length → matchAt s i = none := by
    intro i hi
    have hfalse1 : ∀ k, 2 ≤ k → k ≤ runLen s i → lookCsv s (i + k) = false := by
      intro k hk2 hkr
      have hik : i + k ≤ u.length := by
        have := hrunU i hi
        omega
      have hne : i + k ≠ u.length + 1 + b.length := by omega
      rcases hb : lookCsv s (i + k) with _ | _
      · rfl
      · exact absurd ((hlook_iff (i + k)).1 hb) hne
    unfold matchAt
    rw [tryLen_none s i (runLen s i) hfalse1]
    rfl
  have hMsome : matchAt s (u.length + 1) = some b := by
    have hfalse2 : ∀ k, b.length < k → k ≤ b.length + 4 →
        lookCsv s (u.length + 1 + k) = false := by
      intro k hk1 hk2
      have hne : u.length + 1 + k ≠ u.length + 1 + b.length := by omega
      rcases hb : lookCsv s (u.length + 1 + k) with _ | _
      · rfl
      · exact absurd ((hlook_iff (u.length + 1 + k)).1 hb) hne
    have hlook0 : lookCsv s (u.length + 1 + b.length) = true := by
      rw [hlook_iff]
    have htl := tryLen_some s (u.length + 1) b.length hlook0 hb2 (b.length + 4)
      (by omega) hfalse2
    unfold matchAt
    rw [hrunB, htl]
    simp only [Option.map_some']
    rw [hdrop4]
    exact congrArg some (List.take_left' rfl)
  rw [derive_name, if_pos rfl]
  unfold truncate_name
  exact searchAux_spec s (u.length + 1) b
    (fun j hj => hMnone j (by omega)) hMsome (s.length + 1) 0 (by omega) (by omega)

/-- Witness for C2 at the spec's example filename. -/
theorem C2_truncate_general_witness :
    derive_name true ("2016-01-01_plateA".toList ++ '_' ::
        ("cell".toList ++ ['.', 'c', 's', 'v'])) = some "cell".toList :=
  C2_truncate_general "2016-01-01_plateA".toList "cell".toList (by decide) (by decide)
    (by decide)

/-- C8 counterexample: the first file of the batch is malformed; the second
file would load fine but is never attempted and no error collection takes
place — the loop aborts with the first file's error instead of attempting
every discovered file. -/
theorem C8_counterexample :
    to_db readCsvC8
        [("bad.csv".toList, "bad".toList), ("good.csv".toList, "good".toList)] []
      = ([], some "parse error")
    ∧ readCsvC8 "good.csv".toList = .ok ⟨[['x']], [[some 1]]⟩ := by
  constructor <;> rfl

/-- C8 (amended): a failure loading one file aborts the batch immediately:
the files before the failing one are written, the failing file's error
propagates, and the files after it are not attempted; no per-file error
collection occurs. -/
theorem C8_abort (readCsv : Str → Except String Table) (pre post : List (Str × Str))
    (p nm : Str) (e : String) (db : List (Str × Table))
    (hpre : ∀ q ∈ pre, ∃ tb, readCsv q.1 = .ok tb) (hp : readCsv p = .error e) :
    to_db readCsv (pre ++ (p, nm) :: post) db
      = ((to_db readCsv pre db).1, some e) := by
  induction pre generalizing db with
  | nil =>
    rw [List.nil_append]
    simp only [to_db]
    rw [hp]
  | cons q rest ih =>
    obtain ⟨qp, qn⟩ := q
    obtain ⟨tb, htb⟩ := hpre (qp, qn) (by simp)
    rw [List.cons_append]
    simp only [to_db]
    rw [htb]
    exact ih (to_sql db qn tb) (fun q' hq' => hpre q' (by simp [hq']))

/-- Witness for C8: one good file before a bad one; the good file is
written, the bad file's error is returned, nothing after is attempted. -/
theorem C8_abort_witness :
    to_db readCsvC8 ([("good.csv".toList, "good".toList)] ++
        ("bad.csv".toList, "bad".toList) :: [("later.csv".toList, "later".toList)]) []
      = ((to_db readCsvC8 [("good.csv".toList, "good".toList)] []).1,
          some "parse error") :=
  C8_abort readCsvC8 [("good.csv".toList, "good".toList)]
    [("later.csv".toList, "later".toList)] "bad.csv".toList "bad".toList "parse error" []
    (fun q hq => by
      rw [List.mem_singleton] at hq
      subst hq
      exact ⟨⟨[['x']], [[some 1]]⟩, rfl⟩)
    rfl

/-- C10: in the state-passing embedding of the Python calls, `impute`
returns exactly the post-call state of its argument (the table was modified
in place and returned), and that state differs from the input whenever a
missing feature value was filled; `collapse_cols`, `inflate_cols` and
`img_to_metadata` leave their argument's state unchanged. -/
theorem C10_impute_in_place :
    (∀ (t : Table) (method : String) (kw : ImputeKwargs) (d : Table),
      impute t method kw = .ok d →
        (impute_call t method kw).2 = d
        ∧ (impute_call t method kw).1 = .ok (impute_call t method kw).2)
    ∧ ((impute_call tableC5 "median" ⟨none, none⟩).2 ≠ tableC5)
    ∧ (∀ (cols2 : List (Str × Str)) (sep : Str), (collapse_cols_call cols2 sep).2 = cols2)
    ∧ (∀ labels, (inflate_cols_call labels).2 = labels)
    ∧ (∀ (t : Table) (p : Str) (extra : ExtraArg),
        (img_to_metadata_call t p extra).2 = t) := by
  refine ⟨?_, by decide, fun _ _ => rfl, fun _ => rfl, fun _ _ _ => rfl⟩
  intro t method kw d hok
  unfold impute_call
  rw [hok]
  exact ⟨rfl, rfl⟩

/-- Witness for C10 at the concrete impute example table, called in the
default configuration (no classification kwargs). -/
theorem C10_impute_in_place_witness :
    (impute_call tableC5 "median" ⟨none, none⟩).2
        = ⟨["Metadata_plate".toList, "Metadata_well".toList, "AreaShape_Area".toList],
            [[some 1, some 1, some 10], [some 1, some 2, some 10]]⟩
    ∧ (impute_call tableC5 "median" ⟨none, none⟩).1
        = .ok (impute_call tableC5 "median" ⟨none, none⟩).2 :=
  C10_impute_in_place.1 tableC5 "median" ⟨none, none⟩
    ⟨["Metadata_plate".toList, "Metadata_well".toList, "AreaShape_Area".toList],
      [[some 1, some 1, some 10], [some 1, some 2, some 10]]⟩ rfl

end Morar
